import Mathlib

/-!
# Personal blog: listing and detail controllers

A shallow embedding of `src/script.js` (classes `BlogManager` and
`PostPageManager`) and theorems about filtering, searching, pagination,
post lookup and content formatting.

Modelling conventions.

* A JavaScript string is a list of characters (`JSString`).
* Integral JavaScript numbers (`id`, `currentPage`, array indices) are `Int`: the
  integer the double holds. The result of `parseInt`, which may also be `NaN` or
  an infinity and is rounded to a double, is a `JSNumber`.
* The DOM is reduced to the two elements `renderPosts` touches: the children of
  `#posts-container` and the inline `style.display` of `#load-more-btn`, each
  optional because the code guards on their presence.
* The built-ins `String.prototype.toLowerCase` and the `Date` constructor are
  parameters of the operations that call them; `trim`, `includes`, `split`,
  `slice`, `find`, `sort` and `parseInt` are written out.
-/

namespace Blog

/-- A JavaScript string value. -/
abbrev JSString := List Char

/-- A post record of `posts.json`. -/
structure Post where
  id : Int
  title : JSString
  excerpt : JSString
  content : JSString
  author : JSString
  image : JSString
  category : JSString
  date : JSString
  tags : List JSString
  deriving DecidableEq, Repr

/-- A child of `#posts-container`: a post card built by `createPostElement`, the
"No posts found" placeholder, or the error panel of `showError`. -/
inductive Node where
  | postCard (post : Post)
  | noPostsFound
  | errorPanel (message : JSString)
  deriving DecidableEq, Repr

/-- The fields of a `BlogManager` instance together with the part of the DOM it
reads and writes. -/
structure BlogManager where
  posts : List Post
  filteredPosts : List Post
  currentPage : Int
  postsPerPage : Int
  currentFilter : JSString
  container : Option (List Node)
  loadMoreBtn : Option JSString
  deriving DecidableEq, Repr

/-- The state set up by `constructor` (lines 3-9), before `init` runs, on a page
whose container holds `container` and whose load-more button has inline display
`loadMoreBtn`. -/
def BlogManager.new (container : Option (List Node)) (loadMoreBtn : Option JSString) :
    BlogManager :=
  { posts := [], filteredPosts := [], currentPage := 1, postsPerPage := 6,
    currentFilter := "all".toList, container := container, loadMoreBtn := loadMoreBtn }

/-! ## Built-in string and array operations -/

/-- The characters `String.prototype.trim` strips: ECMAScript `WhiteSpace` and
`LineTerminator`. -/
def isWhiteSpace (c : Char) : Bool :=
  let n := c.toNat
  n == 0x09 || n == 0x0A || n == 0x0B || n == 0x0C || n == 0x0D || n == 0x20 ||
  n == 0xA0 || n == 0x1680 || (0x2000 ≤ n && n ≤ 0x200A) || n == 0x2028 ||
  n == 0x2029 || n == 0x202F || n == 0x205F || n == 0x3000 || n == 0xFEFF

/-- The method `String.prototype.trimStart`. -/
def trimStart (s : JSString) : JSString := s.dropWhile isWhiteSpace

/-- The method `String.prototype.trimEnd`. -/
def trimEnd (s : JSString) : JSString := (s.reverse.dropWhile isWhiteSpace).reverse

/-- The method `String.prototype.trim`. -/
def trim (s : JSString) : JSString := trimEnd (trimStart s)

/-- Whether `t` is an initial segment of `s` (`String.prototype.startsWith`). -/
def startsWith : JSString → JSString → Bool
  | _, [] => true
  | [], _ :: _ => false
  | c :: s, d :: t => c == d && startsWith s t

/-- The method `String.prototype.includes`: `t` occurs in `s` at some position. -/
def includes : JSString → JSString → Bool
  | [], t => startsWith [] t
  | c :: s, t => startsWith (c :: s) t || includes s t

/-- The method `Array.prototype.slice(start, end)` on a list, with the
relative-index clamping of the language specification. -/
def slice {α : Type} (xs : List α) (start stop : Int) : List α :=
  let len : Int := xs.length
  let k : Int := if start < 0 then max (len + start) 0 else min start len
  let final : Int := if stop < 0 then max (len + stop) 0 else min stop len
  (xs.drop k.toNat).take (final - k).toNat

/-! ## `BlogManager` -/

/-- The card `createPostElement` builds for a post (lines 145-195). -/
def createPostElement (post : Post) : Node := Node.postCard post

/-- The local `startIndex` of `renderPosts` (line 105). -/
def startIndex (s : BlogManager) : Int := (s.currentPage - 1) * s.postsPerPage

/-- The local `endIndex` of `renderPosts` (line 106). -/
def endIndex (s : BlogManager) : Int := startIndex s + s.postsPerPage

/-- The local `postsToShow` of `renderPosts` (line 107). -/
def postsToShow (s : BlogManager) : List Post :=
  slice s.filteredPosts (startIndex s) (endIndex s)

/-- The method `renderPosts(append)` (lines 95-143). -/
def renderPosts (s : BlogManager) (append : Bool) : BlogManager :=
  match s.container with
  | none => s
  | some children =>
    let cleared : List Node := if !append then [] else children
    if (postsToShow s).length == 0 && !append then
      { s with container := some [Node.noPostsFound],
               loadMoreBtn := s.loadMoreBtn.map (fun _ => "none".toList) }
    else
      let hasMorePosts : Bool := decide (endIndex s < (s.filteredPosts.length : Int))
      { s with container := some (cleared ++ (postsToShow s).map createPostElement),
               loadMoreBtn := s.loadMoreBtn.map
                 (fun _ => if hasMorePosts then "block".toList else "none".toList) }

/-- The method `filterPosts(category)` (lines 64-75). -/
def filterPosts (s : BlogManager) (category : JSString) : BlogManager :=
  let s1 := { s with currentFilter := category, currentPage := 1 }
  let s2 :=
    if category = "all".toList then
      { s1 with filteredPosts := s1.posts }
    else
      { s1 with filteredPosts := s1.posts.filter (fun post => post.category == category) }
  renderPosts s2 false

/-- The method `searchPosts(query)` (lines 77-93). -/
def searchPosts (toLowerCase : JSString → JSString) (s : BlogManager) (query : JSString) :
    BlogManager :=
  let searchTerm := trim (toLowerCase query)
  let s1 :=
    if searchTerm.isEmpty then
      { s with filteredPosts := s.posts }
    else
      { s with filteredPosts := s.posts.filter (fun post =>
          includes (toLowerCase post.title) searchTerm ||
          includes (toLowerCase post.excerpt) searchTerm ||
          includes (toLowerCase post.content) searchTerm ||
          post.tags.any (fun tag => includes (toLowerCase tag) searchTerm)) }
  renderPosts { s1 with currentPage := 1 } false

/-- The click handler of the load-more button (lines 49-52). -/
def loadMore (s : BlogManager) : BlogManager :=
  renderPosts { s with currentPage := s.currentPage + 1 } true

/-- A lower-casing that maps `A`-`Z` to `a`-`z` and leaves every other character
alone; it agrees with `toLowerCase` on ASCII text. -/
def asciiLowerCase (s : JSString) : JSString := s.map Char.toLower

/-- The method `Array.prototype.sort(comparefn)`, step of inserting one element:
`a` goes before the first `b` with `comparefn(a, b) <= 0`. -/
def insertSorted {α : Type} (comparefn : α → α → Int) (a : α) : List α → List α
  | [] => [a]
  | b :: l => if comparefn a b ≤ 0 then a :: b :: l else b :: insertSorted comparefn a l

/-- The method `Array.prototype.sort(comparefn)`. The language requires the sort
to be stable, which fixes its result for a consistent comparator; the stable
insertion sort computes that result. For an inconsistent comparator (here, when
some date is invalid) the language leaves the order to the engine, and this
function then gives one permutation among those allowed. -/
def sort {α : Type} (comparefn : α → α → Int) : List α → List α
  | [] => []
  | a :: l => insertSorted comparefn a (sort comparefn l)

/-- The comparator of line 24, `new Date(b.date) - new Date(a.date)`, where
`dateValue d` is the time value of `new Date(d)` and `none` stands for an
invalid date. A `NaN` difference is treated by `sort` as `+0`. -/
def compareByDate (dateValue : JSString → Option Int) (a b : Post) : Int :=
  match dateValue b.date, dateValue a.date with
  | some tb, some ta => tb - ta
  | _, _ => 0

/-- The method `BlogManager.showError(message)` (lines 213-227). -/
def showError (s : BlogManager) (message : JSString) : BlogManager :=
  { s with container := s.container.map (fun _ => [Node.errorPanel message]) }

/-- The method `loadPosts()` (lines 20-30). `fetched` is the `posts` array of the
fetched document, or `none` when the fetch or its parsing throws. -/
def loadPosts (dateValue : JSString → Option Int) (s : BlogManager)
    (fetched : Option (List Post)) : BlogManager :=
  match fetched with
  | some dataPosts =>
    let sorted := sort (compareByDate dateValue) dataPosts
    { s with posts := sorted, filteredPosts := sorted }
  | none => showError s "Failed to load blog posts. Please try again later.".toList

/-- The method `init()` (lines 13-18): load, then the first render. -/
def init (dateValue : JSString → Option Int) (s : BlogManager)
    (fetched : Option (List Post)) : BlogManager :=
  renderPosts (loadPosts dateValue s fetched) false

/-- A user interaction handled by the listeners of `setupEventListeners`
(lines 32-62) and by the tag links of `createPostElement`, which call
`searchPosts`. -/
inductive Action where
  | filter (category : JSString)
  | search (query : JSString)
  | more
  deriving DecidableEq, Repr

/-- The effect of one interaction on the controller. -/
def step (toLowerCase : JSString → JSString) (s : BlogManager) : Action → BlogManager
  | Action.filter category => filterPosts s category
  | Action.search query => searchPosts toLowerCase s query
  | Action.more => loadMore s

/-- The effect of a sequence of interactions, oldest first. -/
def run (toLowerCase : JSString → JSString) (s : BlogManager) (actions : List Action) :
    BlogManager :=
  actions.foldl (step toLowerCase) s

/-- The state after `j` clicks on the load-more button. -/
def loadMoreTimes (s : BlogManager) : Nat → BlogManager
  | 0 => s
  | j + 1 => loadMore (loadMoreTimes s j)

/-! ## `PostPageManager` -/

/-- The value of a digit in a radix up to 16, if the character is one. -/
def digitValue (radix : Nat) (c : Char) : Option Nat :=
  let n := c.toNat
  let v : Option Nat :=
    if 48 ≤ n ∧ n ≤ 57 then some (n - 48)
    else if 97 ≤ n ∧ n ≤ 102 then some (n - 87)
    else if 65 ≤ n ∧ n ≤ 70 then some (n - 55)
    else none
  v.filter (fun d => decide (d < radix))

/-- The longest run of radix digits at the start of a string, as digit values. -/
def leadingDigits (radix : Nat) : JSString → List Nat
  | [] => []
  | c :: s =>
    match digitValue radix c with
    | some d => d :: leadingDigits radix s
    | none => []

/-- Step 4 of `parseInt`: the sign, and the text after a leading `+` or `-`. -/
def parseSign (s : JSString) : Int × JSString :=
  match s with
  | '-' :: r => (-1, r)
  | '+' :: r => (1, r)
  | _ => (1, s)

/-- Step 10 of `parseInt` with no radix argument: radix 16 and the text after a
leading `0x` or `0X`, radix 10 otherwise. -/
def parseRadix (s : JSString) : Nat × JSString :=
  match s with
  | '0' :: 'x' :: r => (16, r)
  | '0' :: 'X' :: r => (16, r)
  | _ => (10, s)

/-- A number as `parseInt` returns it: `NaN`, an infinity, or a finite double
holding an integer (`-0` and `+0` are both `finite 0`, as `===` equates them). -/
inductive JSNumber where
  | nan
  | finite (value : Int)
  | infinity (negative : Bool)
  deriving DecidableEq, Repr

/-- The number of binary digits of `n`, counted in at most `fuel` halvings. -/
def bitLengthGo : Nat → Nat → Nat
  | 0, _ => 0
  | fuel + 1, n => if n = 0 then 0 else bitLengthGo fuel (n / 2) + 1

/-- The number of binary digits of a natural number. -/
def bitLength (n : Nat) : Nat := bitLengthGo n n

/-- The magnitude of the double nearest to a natural number: below `2^53` the
number itself, above it the 53 leading binary digits rounded to nearest with ties
to the even significand; `none` when the result exceeds the largest double. -/
def roundToDouble (n : Nat) : Option Nat :=
  if n < 2 ^ 53 then some n
  else
    let shift := bitLength n - 53
    let q := n / 2 ^ shift
    let r := n % 2 ^ shift
    let half := 2 ^ (shift - 1)
    let q1 := if half < r ∨ (r = half ∧ q % 2 = 1) then q + 1 else q
    if 971 < shift ∨ (shift = 971 ∧ q1 = 2 ^ 53) then none else some (q1 * 2 ^ shift)

/-- The Number value of a mathematical integer (the conversion written `𝔽` in the
language specification). -/
def toNumber (n : Int) : JSNumber :=
  match roundToDouble n.natAbs with
  | some v => JSNumber.finite (if n < 0 then -(v : Int) else (v : Int))
  | none => JSNumber.infinity (decide (n < 0))

/-- The global `parseInt(string)` with no radix argument: leading white space is
skipped, a sign is read, a `0x` or `0X` selects radix 16, and the longest run of
digits is converted to the nearest double; with no digit the result is `NaN`. -/
def parseInt (input : JSString) : JSNumber :=
  let signed := parseSign (trimStart input)
  let based := parseRadix signed.2
  let z := leadingDigits based.1 based.2
  if z.isEmpty then JSNumber.nan
  else toNumber (signed.1 * ((z.foldl (fun acc d => acc * based.1 + d) 0 : Nat) : Int))

/-- The method `Array.prototype.find(predicate)`; `none` is `undefined`. -/
def find {α : Type} (predicate : α → Bool) : List α → Option α
  | [] => none
  | a :: l => if predicate a then some a else find predicate l

/-- The method `BlogManager.getPostById(id)` (lines 230-232). -/
def getPostById (s : BlogManager) (id : JSString) : Option Post :=
  find (fun post => JSNumber.finite post.id == parseInt id) s.posts

/-- What `PostPageManager` writes into `#post-container`: the article of
`renderPost`, the panel of `showPostNotFound`, or the panel of `showError`. -/
inductive PostPage where
  | rendered (post : Post)
  | postNotFound
  | loadError (message : JSString)
  deriving DecidableEq, Repr

/-- The method `loadAndDisplayPost(postId)` (lines 250-265). `fetched` is the
`posts` array of the fetched document, or `none` when the fetch or its parsing
throws. -/
def loadAndDisplayPost (fetched : Option (List Post)) (postId : JSString) : PostPage :=
  match fetched with
  | some dataPosts =>
    match find (fun p => JSNumber.finite p.id == parseInt postId) dataPosts with
    | some post => PostPage.rendered post
    | none => PostPage.postNotFound
  | none => PostPage.loadError "Failed to load the post. Please try again later.".toList

/-- The scan of `String.prototype.split(separator)` for a non-empty separator:
`skip` counts the characters of a matched separator still to pass over and
`piece` holds the current piece, last character first. -/
def splitGo (separator : JSString) : JSString → Nat → JSString → List JSString
  | [], _, piece => [piece.reverse]
  | _ :: s, skip + 1, piece => splitGo separator s skip piece
  | c :: s, 0, piece =>
    if startsWith (c :: s) separator then
      piece.reverse :: splitGo separator s (separator.length - 1) []
    else splitGo separator s 0 (c :: piece)

/-- The method `String.prototype.split(separator)`: an empty separator splits into
single characters, any other splits at each occurrence found left to right. -/
def split (s separator : JSString) : List JSString :=
  if separator.isEmpty then s.map (fun c => [c]) else splitGo separator s 0 []

/-- The method `Array.prototype.join(separator)` on an array of strings. -/
def join (separator : JSString) : List JSString → JSString
  | [] => []
  | [a] => a
  | a :: b :: l => a ++ separator ++ join separator (b :: l)

/-- The paragraphs `formatContent` builds before joining them (lines 331-332). -/
def formatParagraphs (content : JSString) : List JSString :=
  (split content "\n\n".toList).map (fun p => "<p>".toList ++ trim p ++ "</p>".toList)

/-- The method `formatContent(content)` (lines 329-333). -/
def formatContent (content : JSString) : JSString :=
  join [] (formatParagraphs content)

/-! ## Notions used to state the properties -/

/-- The character of a decimal digit. -/
def digitChar (d : Nat) : Char := Char.ofNat (48 + d)

/-- The decimal digits of a natural number, most significant first. -/
def decimalDigits (n : Nat) : JSString := ((Nat.digits 10 n).reverse).map digitChar

/-- The decimal text of an integer: a `-` for a negative one, then its decimal
digits with no leading zero. -/
def idText (n : Int) : JSString :=
  match n with
  | Int.ofNat 0 => ['0']
  | Int.ofNat (m + 1) => decimalDigits (m + 1)
  | Int.negSucc m => '-' :: decimalDigits (m + 1)

/-- The integer is the value of some double, so a number can hold it. -/
def isDouble (n : Int) : Prop := toNumber n = JSNumber.finite n

instance isDoubleDecidable (n : Int) : Decidable (isDouble n) :=
  inferInstanceAs (Decidable (toNumber n = JSNumber.finite n))

/-- The date of `a` is valid and greater than or equal to the valid date of `b`. -/
def dateNotBefore (dateValue : JSString → Option Int) (a b : Post) : Prop :=
  match dateValue a.date, dateValue b.date with
  | some ta, some tb => tb ≤ ta
  | _, _ => False

instance dateNotBeforeDecidable (dateValue : JSString → Option Int) (a b : Post) :
    Decidable (dateNotBefore dateValue a b) := by
  unfold dateNotBefore
  cases dateValue a.date <;> cases dateValue b.date <;> simp only [] <;> infer_instance

/-- A string made of white space only (the empty string included). -/
def isBlank (s : JSString) : Prop := ∀ c ∈ s, isWhiteSpace c = true

instance isBlankDecidable (s : JSString) : Decidable (isBlank s) :=
  inferInstanceAs (Decidable (∀ c ∈ s, isWhiteSpace c = true))

/-- Whether an inline `style.display` value shows the element. -/
def isDisplayed (display : JSString) : Prop := display ≠ "none".toList

instance isDisplayedDecidable (display : JSString) : Decidable (isDisplayed display) :=
  inferInstanceAs (Decidable (display ≠ "none".toList))

/-! ## Sample data -/

/-- A post with the given identifier, category, title and tags; the other text
fields are empty. -/
def samplePost (id : Int) (category title : String) (tags : List String) : Post :=
  { id := id, title := title.toList, excerpt := [], content := [], author := [],
    image := [], category := category.toList, date := [], tags := tags.map String.toList }

/-- A listing page, with container and load-more button, holding the given posts
unfiltered on page 1. -/
def samplePage (posts : List Post) : BlogManager :=
  { BlogManager.new (some []) (some []) with posts := posts, filteredPosts := posts }

/-- Two posts, the first of which carries the category text `all`. -/
def twoCategories : List Post :=
  [samplePost 1 "all" "General notes" [], samplePost 2 "tech" "Compilers" []]

/-- Two posts, the first of which mentions React in a tag only. -/
def taggedPosts : List Post :=
  [samplePost 1 "tech" "Hooks in depth" ["React", "JS"], samplePost 2 "life" "Hiking" ["Outdoors"]]

/-- A date reader for sample data: the text is a day count, read by `parseInt`;
any other text is an invalid date. -/
def sampleDateValue (d : JSString) : Option Int :=
  match parseInt d with
  | JSNumber.finite v => some v
  | _ => none

/-- The sample post with a date. -/
def datedPost (id : Int) (category title date : String) : Post :=
  { id := id, title := title.toList, excerpt := [], content := [], author := [],
    image := [], category := category.toList, date := date.toList, tags := [] }

/-- Three posts dated day 5, day 9 and day 5. -/
def datedPosts : List Post :=
  [datedPost 1 "tech" "A" "5", datedPost 2 "tech" "B" "9", datedPost 3 "life" "C" "5"]

/-! ## General lemmas -/

theorem renderPosts_posts (s : BlogManager) (append : Bool) :
    (renderPosts s append).posts = s.posts := by
  unfold renderPosts
  cases s.container <;> simp only []
  split <;> rfl

theorem renderPosts_filteredPosts (s : BlogManager) (append : Bool) :
    (renderPosts s append).filteredPosts = s.filteredPosts := by
  unfold renderPosts
  cases s.container <;> simp only []
  split <;> rfl

theorem renderPosts_currentPage (s : BlogManager) (append : Bool) :
    (renderPosts s append).currentPage = s.currentPage := by
  unfold renderPosts
  cases s.container <;> simp only []
  split <;> rfl

theorem isBlank_trim {s : JSString} (h : isBlank s) : trim s = [] := by
  have h1 : trimStart s = [] := by
    unfold trimStart
    exact List.dropWhile_eq_nil_iff.mpr h
  simp [trim, h1, trimEnd]

theorem startsWith_iff (s t : JSString) : startsWith s t = true ↔ t <+: s := by
  induction s generalizing t with
  | nil => cases t <;> simp [startsWith]
  | cons c s ih =>
    cases t with
    | nil => simp [startsWith]
    | cons d t =>
      simp only [startsWith, Bool.and_eq_true, beq_iff_eq, ih, List.cons_prefix_cons]
      constructor
      · rintro ⟨h1, h2⟩
        exact ⟨h1.symm, h2⟩
      · rintro ⟨h1, h2⟩
        exact ⟨h1.symm, h2⟩

theorem includes_iff (s t : JSString) : includes s t = true ↔ t <:+: s := by
  induction s with
  | nil =>
    simp only [includes, startsWith_iff]
    constructor
    · intro h
      exact h.isInfix
    · intro h
      have := List.eq_nil_of_infix_nil h
      subst this
      exact List.prefix_rfl
  | cons c s ih =>
    simp only [includes, Bool.or_eq_true, startsWith_iff, ih]
    rw [List.infix_cons_iff]

theorem filter_sublist_posts (s : BlogManager) (f : Post → Bool) :
    List.Sublist (s.posts.filter f) s.posts :=
  List.filter_sublist s.posts

theorem filterPosts_filteredPosts (s : BlogManager) (c : JSString) :
    (filterPosts s c).filteredPosts =
      if c = "all".toList then s.posts else s.posts.filter (fun post => post.category == c) := by
  unfold filterPosts
  simp only [renderPosts_filteredPosts]
  split <;> rfl

theorem filterPosts_posts (s : BlogManager) (c : JSString) :
    (filterPosts s c).posts = s.posts := by
  unfold filterPosts
  simp only [renderPosts_posts]
  split <;> rfl

theorem searchPosts_filteredPosts (toLowerCase : JSString → JSString) (s : BlogManager)
    (query : JSString) :
    (searchPosts toLowerCase s query).filteredPosts =
      if (trim (toLowerCase query)).isEmpty then s.posts
      else s.posts.filter (fun post =>
          includes (toLowerCase post.title) (trim (toLowerCase query)) ||
          includes (toLowerCase post.excerpt) (trim (toLowerCase query)) ||
          includes (toLowerCase post.content) (trim (toLowerCase query)) ||
          post.tags.any (fun tag => includes (toLowerCase tag) (trim (toLowerCase query)))) := by
  unfold searchPosts
  simp only [renderPosts_filteredPosts]
  split <;> rfl

theorem searchPosts_posts (toLowerCase : JSString → JSString) (s : BlogManager)
    (query : JSString) : (searchPosts toLowerCase s query).posts = s.posts := by
  unfold searchPosts
  simp only [renderPosts_posts]
  split <;> rfl

theorem searchPosts_currentPage (toLowerCase : JSString → JSString) (s : BlogManager)
    (query : JSString) : (searchPosts toLowerCase s query).currentPage = 1 := by
  unfold searchPosts
  simp only [renderPosts_currentPage]

theorem asciiLowerCase_blank (q : JSString) (h : isBlank q) : isBlank (asciiLowerCase q) := by
  intro c hc
  simp only [asciiLowerCase, List.mem_map] at hc
  obtain ⟨d, hd, rfl⟩ := hc
  have hw := h d hd
  have hd2 : d.toLower = d := by
    have hr : ¬ (d.toNat ≥ 65 ∧ d.toNat ≤ 90) := by
      simp only [isWhiteSpace, Bool.or_eq_true, beq_iff_eq, Bool.and_eq_true,
        decide_eq_true_eq] at hw
      omega
    show (if d.toNat ≥ 65 ∧ d.toNat ≤ 90 then Char.ofNat (d.toNat + 32) else d) = d
    rw [if_neg hr]
  rw [hd2]
  exact hw

theorem slice_nat {α : Type} (xs : List α) (a n : Nat) :
    slice xs (a : Int) ((a : Int) + (n : Int)) = (xs.drop a).take n := by
  unfold slice
  have h1 : ¬ ((a : Int) < 0) := by omega
  have h2 : ¬ ((a : Int) + (n : Int) < 0) := by omega
  simp only [h1, h2, if_false]
  by_cases hle : a ≤ xs.length
  · have hk : (min (a : Int) (xs.length : Int)).toNat = a := by omega
    rw [hk]
    by_cases hle2 : a + n ≤ xs.length
    · have hf : (min ((a : Int) + (n : Int)) (xs.length : Int) - min (a : Int) (xs.length : Int)).toNat
          = n := by omega
      rw [hf]
    · have hf : (min ((a : Int) + (n : Int)) (xs.length : Int) - min (a : Int) (xs.length : Int)).toNat
          = xs.length - a := by omega
      rw [hf]
      have hlen : (xs.drop a).length = xs.length - a := List.length_drop a xs
      rw [List.take_of_length_le (by omega), List.take_of_length_le (by omega)]
  · have hk : (min (a : Int) (xs.length : Int)).toNat = xs.length := by omega
    rw [hk]
    have hd1 : xs.drop xs.length = [] := List.drop_of_length_le (le_refl _)
    have hd2 : xs.drop a = [] := List.drop_of_length_le (by omega)
    rw [hd1, hd2]
    simp

theorem take_min_length {α : Type} (xs : List α) (a : Nat) :
    xs.take (min a xs.length) = xs.take a := by
  by_cases h : a ≤ xs.length
  · rw [Nat.min_eq_left h]
  · rw [Nat.min_eq_right (by omega), List.take_of_length_le (le_refl _),
      List.take_of_length_le (by omega)]

theorem postsToShow_page (s : BlogManager) (k : Nat) (hk : 1 ≤ k)
    (hpp : s.postsPerPage = 6) (hpage : s.currentPage = (k : Int)) :
    postsToShow s = (s.filteredPosts.drop (6 * (k - 1))).take 6 := by
  unfold postsToShow endIndex startIndex
  rw [hpp, hpage]
  have h1 : ((k : Int) - 1) * 6 = ((6 * (k - 1) : Nat) : Int) := by omega
  rw [h1]
  exact slice_nat s.filteredPosts (6 * (k - 1)) 6

theorem endIndex_page (s : BlogManager) (k : Nat)
    (hpp : s.postsPerPage = 6) (hpage : s.currentPage = (k : Int)) :
    endIndex s = ((6 * k : Nat) : Int) := by
  unfold endIndex startIndex
  rw [hpp, hpage]
  omega

theorem renderPosts_append (s : BlogManager) (children : List Node)
    (hc : s.container = some children) :
    renderPosts s true =
      { s with container := some (children ++ (postsToShow s).map createPostElement),
               loadMoreBtn := s.loadMoreBtn.map (fun _ =>
                 if decide (endIndex s < (s.filteredPosts.length : Int)) then "block".toList
                 else "none".toList) } := by
  unfold renderPosts
  rw [hc]
  simp

theorem renderPosts_replace (s : BlogManager) (children : List Node)
    (hc : s.container = some children) (hne : postsToShow s ≠ []) :
    renderPosts s false =
      { s with container := some ((postsToShow s).map createPostElement),
               loadMoreBtn := s.loadMoreBtn.map (fun _ =>
                 if decide (endIndex s < (s.filteredPosts.length : Int)) then "block".toList
                 else "none".toList) } := by
  unfold renderPosts
  rw [hc]
  have h : ((postsToShow s).length == 0) = false := by
    cases hp : postsToShow s with
    | nil => exact absurd hp hne
    | cons a l => rfl
  simp [h]

theorem renderPosts_empty (s : BlogManager) (children : List Node)
    (hc : s.container = some children) (he : postsToShow s = []) :
    renderPosts s false =
      { s with container := some [Node.noPostsFound],
               loadMoreBtn := s.loadMoreBtn.map (fun _ => "none".toList) } := by
  unfold renderPosts
  rw [hc]
  simp [he]

theorem loadMoreTimes_state (s : BlogManager) (children : List Node)
    (hpp : s.postsPerPage = 6) (hpage : s.currentPage = 1)
    (hne : s.filteredPosts ≠ []) (hc : s.container = some children) (j : Nat) :
    (loadMoreTimes (renderPosts s false) j).filteredPosts = s.filteredPosts ∧
    (loadMoreTimes (renderPosts s false) j).posts = s.posts ∧
    (loadMoreTimes (renderPosts s false) j).postsPerPage = 6 ∧
    (loadMoreTimes (renderPosts s false) j).currentPage = ((j + 1 : Nat) : Int) ∧
    (loadMoreTimes (renderPosts s false) j).container =
      some ((s.filteredPosts.take (6 * (j + 1))).map createPostElement) ∧
    (loadMoreTimes (renderPosts s false) j).loadMoreBtn =
      s.loadMoreBtn.map (fun _ =>
        if 6 * (j + 1) < s.filteredPosts.length then "block".toList else "none".toList) := by
  induction j with
  | zero =>
    have hp : postsToShow s = (s.filteredPosts.drop (6 * (1 - 1))).take 6 :=
      postsToShow_page s 1 (le_refl 1) hpp (by rw [hpage]; rfl)
    have hp2 : postsToShow s = s.filteredPosts.take 6 := by simpa using hp
    have hnep : postsToShow s ≠ [] := by
      rw [hp2]
      cases hf : s.filteredPosts with
      | nil => exact absurd hf hne
      | cons a l => simp
    have hend : endIndex s = ((6 * 1 : Nat) : Int) := endIndex_page s 1 hpp (by rw [hpage]; rfl)
    show (renderPosts s false).filteredPosts = _ ∧ (renderPosts s false).posts = _ ∧
      (renderPosts s false).postsPerPage = _ ∧ (renderPosts s false).currentPage = _ ∧
      (renderPosts s false).container = _ ∧ (renderPosts s false).loadMoreBtn = _
    rw [renderPosts_replace s children hc hnep]
    refine ⟨rfl, rfl, hpp, ?_, ?_, ?_⟩
    · show s.currentPage = _
      rw [hpage]
      rfl
    · show some ((postsToShow s).map createPostElement) = _
      rw [hp2]
    · show s.loadMoreBtn.map _ = _
      rw [hend]
      congr 1
      funext _
      simp only [Nat.cast_lt, decide_eq_true_eq]
  | succ j ih =>
    obtain ⟨ihf, ihposts, ihpp, ihpage, ihc, ihb⟩ := ih
    generalize hr : loadMoreTimes (renderPosts s false) j = r at ihf ihposts ihpp ihpage ihc ihb
    have hstep : loadMoreTimes (renderPosts s false) (j + 1) = loadMore r := by
      show loadMore (loadMoreTimes (renderPosts s false) j) = _
      rw [hr]
    rw [hstep]
    have hpage2 : ({ r with currentPage := r.currentPage + 1 } : BlogManager).currentPage
        = ((j + 2 : Nat) : Int) := by
      show r.currentPage + 1 = _
      rw [ihpage]
      omega
    have hp := postsToShow_page { r with currentPage := r.currentPage + 1 } (j + 2)
      (by omega) ihpp hpage2
    have hend := endIndex_page { r with currentPage := r.currentPage + 1 } (j + 2) ihpp hpage2
    unfold loadMore
    rw [renderPosts_append { r with currentPage := r.currentPage + 1 } _ ihc]
    refine ⟨ihf, ihposts, ihpp, ?_, ?_, ?_⟩
    · show r.currentPage + 1 = _
      rw [ihpage]
      omega
    · show some (_ ++ (postsToShow { r with currentPage := r.currentPage + 1 }).map
        createPostElement) = _
      rw [hp]
      show some (_ ++ ((r.filteredPosts.drop (6 * (j + 2 - 1))).take 6).map createPostElement) = _
      rw [ihf, ← List.map_append]
      have h6 : 6 * (j + 2 - 1) = 6 * (j + 1) := by omega
      have h7 : 6 * (j + 1 + 1) = 6 * (j + 1) + 6 := by omega
      rw [h6, h7, List.take_add]
    · show Option.map _ r.loadMoreBtn = _
      rw [hend, ihb, Option.map_map]
      show Option.map _ s.loadMoreBtn = _
      congr 1
      funext _
      show (if decide (((6 * (j + 2) : Nat) : Int) < (r.filteredPosts.length : Int)) = true
        then "block".toList else "none".toList) = _
      rw [ihf]
      have h8 : 6 * (j + 1 + 1) = 6 * (j + 2) := by omega
      rw [h8]
      simp only [Nat.cast_lt, decide_eq_true_eq]

theorem insertSorted_perm {α : Type} (cmp : α → α → Int) (a : α) (l : List α) :
    List.Perm (insertSorted cmp a l) (a :: l) := by
  induction l with
  | nil => exact List.Perm.refl _
  | cons b l ih =>
    unfold insertSorted
    split
    · exact List.Perm.refl _
    · exact (List.Perm.cons b ih).trans (List.Perm.swap a b l)

theorem sort_perm {α : Type} (cmp : α → α → Int) (l : List α) :
    List.Perm (sort cmp l) l := by
  induction l with
  | nil => exact List.Perm.refl _
  | cons a l ih =>
    unfold sort
    exact (insertSorted_perm cmp a _).trans (List.Perm.cons a ih)

theorem insertSorted_pairwise {α : Type} (cmp : α → α → Int) (key : α → Int) (a : α)
    (l : List α)
    (hcmp : ∀ x ∈ a :: l, ∀ y ∈ a :: l, (cmp x y ≤ 0 ↔ key y ≤ key x))
    (hl : List.Pairwise (fun x y => key y ≤ key x) l) :
    List.Pairwise (fun x y => key y ≤ key x) (insertSorted cmp a l) := by
  induction l with
  | nil => exact List.pairwise_singleton _ _
  | cons b l ih =>
    have hb := List.pairwise_cons.mp hl
    unfold insertSorted
    split
    · rename_i hle
      have hba : key b ≤ key a :=
        (hcmp a (List.mem_cons_self _ _) b (List.mem_cons_of_mem _ (List.mem_cons_self _ _))).mp hle
      refine List.pairwise_cons.mpr ⟨?_, hl⟩
      intro y hy
      rcases List.mem_cons.mp hy with rfl | hy
      · exact hba
      · exact le_trans (hb.1 y hy) hba
    · rename_i hnle
      have hab : ¬ key b ≤ key a := fun h =>
        hnle ((hcmp a (List.mem_cons_self _ _) b
          (List.mem_cons_of_mem _ (List.mem_cons_self _ _))).mpr h)
      refine List.pairwise_cons.mpr ⟨?_, ?_⟩
      · intro y hy
        rcases List.mem_cons.mp ((insertSorted_perm cmp a l).mem_iff.mp hy) with rfl | hy
        · omega
        · exact hb.1 y hy
      · apply ih _ hb.2
        intro x hx y hy
        apply hcmp
        · rcases List.mem_cons.mp hx with rfl | hx
          · exact List.mem_cons_self _ _
          · exact List.mem_cons_of_mem _ (List.mem_cons_of_mem _ hx)
        · rcases List.mem_cons.mp hy with rfl | hy
          · exact List.mem_cons_self _ _
          · exact List.mem_cons_of_mem _ (List.mem_cons_of_mem _ hy)

theorem sort_pairwise {α : Type} (cmp : α → α → Int) (key : α → Int) (l : List α)
    (hcmp : ∀ x ∈ l, ∀ y ∈ l, (cmp x y ≤ 0 ↔ key y ≤ key x)) :
    List.Pairwise (fun x y => key y ≤ key x) (sort cmp l) := by
  induction l with
  | nil => exact List.Pairwise.nil
  | cons a l ih =>
    unfold sort
    apply insertSorted_pairwise
    · intro x hx y hy
      apply hcmp
      · rcases List.mem_cons.mp hx with rfl | hx
        · exact List.mem_cons_self _ _
        · exact List.mem_cons_of_mem _ ((sort_perm cmp l).mem_iff.mp hx)
      · rcases List.mem_cons.mp hy with rfl | hy
        · exact List.mem_cons_self _ _
        · exact List.mem_cons_of_mem _ ((sort_perm cmp l).mem_iff.mp hy)
    · apply ih
      intro x hx y hy
      exact hcmp x (List.mem_cons_of_mem _ hx) y (List.mem_cons_of_mem _ hy)

theorem compareByDate_valid (dateValue : JSString → Option Int) (a b : Post)
    (ha : (dateValue a.date).isSome = true) (hb : (dateValue b.date).isSome = true) :
    (compareByDate dateValue a b ≤ 0 ↔
      (dateValue b.date).getD 0 ≤ (dateValue a.date).getD 0) ∧
    (dateNotBefore dateValue a b ↔
      (dateValue b.date).getD 0 ≤ (dateValue a.date).getD 0) := by
  unfold compareByDate dateNotBefore
  cases hda : dateValue a.date with
  | none => rw [hda] at ha; exact absurd ha (by decide)
  | some ta =>
    cases hdb : dateValue b.date with
    | none => rw [hdb] at hb; exact absurd hb (by decide)
    | some tb =>
      show (tb - ta ≤ 0 ↔ tb ≤ ta) ∧ (tb ≤ ta ↔ tb ≤ ta)
      exact ⟨by omega, Iff.rfl⟩

theorem step_posts (toLowerCase : JSString → JSString) (s : BlogManager) (a : Action) :
    (step toLowerCase s a).posts = s.posts := by
  cases a with
  | filter c => exact filterPosts_posts s c
  | search q => exact searchPosts_posts toLowerCase s q
  | more => exact renderPosts_posts _ true

theorem step_sublist (toLowerCase : JSString → JSString) (s : BlogManager) (a : Action)
    (h : List.Sublist s.filteredPosts s.posts) :
    List.Sublist (step toLowerCase s a).filteredPosts s.posts := by
  cases a with
  | filter c =>
    show List.Sublist (filterPosts s c).filteredPosts s.posts
    rw [filterPosts_filteredPosts]
    split
    · exact List.Sublist.refl _
    · exact List.filter_sublist _
  | search q =>
    show List.Sublist (searchPosts toLowerCase s q).filteredPosts s.posts
    rw [searchPosts_filteredPosts]
    split
    · exact List.Sublist.refl _
    · exact List.filter_sublist _
  | more =>
    show List.Sublist (renderPosts _ true).filteredPosts s.posts
    rw [renderPosts_filteredPosts]
    exact h

theorem run_state (toLowerCase : JSString → JSString) (actions : List Action)
    (s : BlogManager) (h : List.Sublist s.filteredPosts s.posts) :
    (run toLowerCase s actions).posts = s.posts ∧
    List.Sublist (run toLowerCase s actions).filteredPosts s.posts := by
  induction actions generalizing s with
  | nil => exact ⟨rfl, h⟩
  | cons a l ih =>
    have h1 := step_posts toLowerCase s a
    have h2 := step_sublist toLowerCase s a h
    have h3 := ih (step toLowerCase s a) (by rw [h1]; exact h2)
    rw [h1] at h3
    exact h3

theorem find_some {α : Type} (f : α → Bool) (l : List α) (x : α)
    (h : find f l = some x) : x ∈ l ∧ f x = true := by
  induction l with
  | nil => simp [find] at h
  | cons a l ih =>
    unfold find at h
    split at h
    · rename_i hfa
      have hax := Option.some.inj h
      subst hax
      exact ⟨List.mem_cons_self _ _, hfa⟩
    · exact ⟨List.mem_cons_of_mem _ (ih h).1, (ih h).2⟩

theorem find_none {α : Type} (f : α → Bool) (l : List α) :
    find f l = none ↔ ∀ x ∈ l, f x = false := by
  induction l with
  | nil => simp [find]
  | cons a l ih =>
    unfold find
    by_cases hfa : f a = true
    · simp [hfa]
    · simp only [hfa, Bool.false_eq_true, if_false, ih, List.mem_cons, forall_eq_or_imp]
      simp only [Bool.not_eq_true] at hfa
      simp [hfa]

theorem digitValue_digitChar (d : Nat) (hd : d < 10) :
    digitValue 10 (digitChar d) = some d := by
  interval_cases d <;> rfl

theorem leadingDigits_digitChars (ds : List Nat) (hds : ∀ x ∈ ds, x < 10) :
    leadingDigits 10 (ds.map digitChar) = ds := by
  induction ds with
  | nil => rfl
  | cons d ds ih =>
    show leadingDigits 10 (digitChar d :: ds.map digitChar) = _
    unfold leadingDigits
    rw [digitValue_digitChar d (hds d (List.mem_cons_self _ _))]
    show d :: leadingDigits 10 (ds.map digitChar) = _
    rw [ih (fun x hx => hds x (List.mem_cons_of_mem _ hx))]

theorem parse_digitChar_head (d : Nat) (h1 : 1 ≤ d) (h10 : d < 10) (rest : JSString) :
    trimStart (digitChar d :: rest) = digitChar d :: rest ∧
    parseSign (digitChar d :: rest) = (1, digitChar d :: rest) ∧
    parseRadix (digitChar d :: rest) = (10, digitChar d :: rest) := by
  interval_cases d <;> exact ⟨rfl, rfl, rfl⟩

theorem parseInt_digitChars (d : Nat) (ds : List Nat) (h1 : 1 ≤ d) (h10 : d < 10)
    (hds : ∀ x ∈ ds, x < 10) :
    parseInt ((d :: ds).map digitChar) =
      toNumber (((d :: ds).foldl (fun acc x => acc * 10 + x) 0 : Nat) : Int) ∧
    parseInt ('-' :: (d :: ds).map digitChar) =
      toNumber (-(((d :: ds).foldl (fun acc x => acc * 10 + x) 0 : Nat) : Int)) := by
  obtain ⟨ht, hs, hr⟩ := parse_digitChar_head d h1 h10 (ds.map digitChar)
  have hall : ∀ x ∈ d :: ds, x < 10 := by
    intro x hx
    rcases List.mem_cons.mp hx with rfl | hx
    · exact h10
    · exact hds x hx
  have hz := leadingDigits_digitChars (d :: ds) hall
  have hm : (d :: ds).map digitChar = digitChar d :: ds.map digitChar := rfl
  have hneg : parseSign (trimStart ('-' :: (d :: ds).map digitChar))
      = (-1, (d :: ds).map digitChar) := rfl
  constructor
  · unfold parseInt
    rw [hm, ht, hs]
    simp only []
    rw [hr]
    simp only []
    rw [← hm, hz]
    simp
  · unfold parseInt
    rw [hneg]
    simp only []
    rw [hm, hr]
    simp only []
    rw [← hm, hz]
    simp

theorem foldl_digits_reverse (n : Nat) :
    (Nat.digits 10 n).reverse.foldl (fun acc x => acc * 10 + x) 0 = n := by
  rw [List.foldl_reverse]
  have h := Nat.ofDigits_digits 10 n
  rw [Nat.ofDigits_eq_foldr] at h
  have h2 : (fun (x y : Nat) => y * 10 + x) = (fun (x y : Nat) => x + 10 * y) := by
    funext x y
    omega
  rw [h2]
  simpa using h

theorem parseInt_decimalDigits (m : Nat) :
    parseInt (decimalDigits (m + 1)) = toNumber ((m + 1 : Nat) : Int) ∧
    parseInt ('-' :: decimalDigits (m + 1)) = toNumber (-((m + 1 : Nat) : Int)) := by
  have hne : Nat.digits 10 (m + 1) ≠ [] := Nat.digits_ne_nil_iff_ne_zero.mpr (by omega)
  have hrev : (Nat.digits 10 (m + 1)).reverse ≠ [] := by simp
  have hlast := Nat.getLast_digit_ne_zero 10 (Nat.succ_ne_zero m)
  have hlt : ∀ x ∈ (Nat.digits 10 (m + 1)).reverse, x < 10 := by
    intro x hx
    exact Nat.digits_lt_base (by decide) (List.mem_reverse.mp hx)
  have hfold := foldl_digits_reverse (m + 1)
  cases hds : (Nat.digits 10 (m + 1)).reverse with
  | nil => exact absurd hds hrev
  | cons d ds =>
    have hd0 : d ≠ 0 := by
      have hh : (Nat.digits 10 (m + 1)).reverse.head? = some d := by rw [hds]; rfl
      rw [List.head?_reverse, List.getLast?_eq_getLast _ hne] at hh
      have hh2 := Option.some.inj hh
      rw [← hh2]
      exact hlast
    rw [hds] at hlt hfold
    have h := parseInt_digitChars d ds (by omega) (hlt d (List.mem_cons_self _ _))
      (fun x hx => hlt x (List.mem_cons_of_mem _ hx))
    unfold decimalDigits
    rw [hds, h.1, h.2, hfold]
    exact ⟨rfl, rfl⟩

theorem isDouble_of_natAbs_lt (n : Int) (h : n.natAbs < 2 ^ 53) : isDouble n := by
  unfold isDouble toNumber roundToDouble
  rw [if_pos h]
  show JSNumber.finite (if n < 0 then -(n.natAbs : Int) else (n.natAbs : Int)) = _
  congr 1
  split <;> omega

theorem parseInt_idText (n : Int) : parseInt (idText n) = toNumber n := by
  cases n with
  | ofNat k =>
    cases k with
    | zero => rfl
    | succ m => exact (parseInt_decimalDigits m).1
  | negSucc m =>
    show parseInt ('-' :: decimalDigits (m + 1)) = _
    rw [(parseInt_decimalDigits m).2]
    rfl

theorem join_cons_cons (sep a : JSString) (l : List JSString) (hl : l ≠ []) :
    join sep (a :: l) = a ++ sep ++ join sep l := by
  cases l with
  | nil => exact absurd rfl hl
  | cons b l => rfl

theorem join_nil_eq_flatten (l : List JSString) : join [] l = l.flatten := by
  induction l with
  | nil => rfl
  | cons a l ih =>
    cases l with
    | nil => simp [join]
    | cons b l =>
      rw [join_cons_cons [] a (b :: l) (by simp), ih]
      simp

theorem splitGo_ne_nil (sep : JSString) (s : JSString) (skip : Nat) (piece : JSString) :
    splitGo sep s skip piece ≠ [] := by
  induction s generalizing skip piece with
  | nil => simp [splitGo]
  | cons c s ih =>
    cases skip with
    | succ k => simpa [splitGo] using ih k piece
    | zero =>
      unfold splitGo
      split
      · simp
      · exact ih 0 (c :: piece)

theorem splitGo_join (sep : JSString) (hsep : sep ≠ []) (s : JSString) (skip : Nat)
    (piece : JSString) :
    join sep (splitGo sep s skip piece) = piece.reverse ++ s.drop skip := by
  induction s generalizing skip piece with
  | nil => simp [splitGo, join]
  | cons c s ih =>
    cases skip with
    | succ k => simpa [splitGo] using ih k piece
    | zero =>
      unfold splitGo
      split
      · rename_i hstart
        rw [join_cons_cons _ _ _ (splitGo_ne_nil _ _ _ _), ih]
        obtain ⟨r, hr⟩ := (startsWith_iff (c :: s) sep).mp hstart
        cases hs : sep with
        | nil => exact absurd hs hsep
        | cons d sep2 =>
          rw [hs] at hr
          have hc : d = c := by
            have := congrArg List.head? hr
            simpa using this
          have htail : sep2 ++ r = s := by
            have := congrArg List.tail hr
            simpa using this
          subst hc
          rw [← htail]
          simp
      · rw [ih]
        simp

theorem split_join (s sep : JSString) (hsep : sep ≠ []) :
    join sep (split s sep) = s ∧ split s sep ≠ [] := by
  unfold split
  have h : sep.isEmpty = false := by
    cases sep with
    | nil => exact absurd rfl hsep
    | cons a l => rfl
  rw [h]
  simp only [Bool.false_eq_true, if_false]
  exact ⟨by simpa using splitGo_join sep hsep s 0 [], splitGo_ne_nil _ _ _ _⟩

/-! ## Filtering by category -/

/-- C1, as stated, fails: on a collection holding a post of category `all` and a
post of category `tech`, `filterPosts("all")` keeps both posts although only the
first has the category filtered by. -/
theorem filterPosts_all_counterexample :
    (∃ p ∈ (samplePage twoCategories).posts, p.category = "all".toList) ∧
    (filterPosts (samplePage twoCategories) "all".toList).filteredPosts = twoCategories ∧
    (samplePage twoCategories).posts.filter (fun p => p.category == "all".toList)
      = [samplePost 1 "all" "General notes" []] ∧
    (filterPosts (samplePage twoCategories) "all".toList).filteredPosts ≠
      (samplePage twoCategories).posts.filter (fun p => p.category == "all".toList) := by
  decide

/-- C1 (amended): for every category value `c` other than the sentinel `all`,
after `filterPosts(c)` the list `filteredPosts` is exactly the posts of `posts`
whose category equals `c`, in the order of `posts`: it is the filtered list, a
post is in it iff it is in `posts` with category `c`, and it is a subsequence of
`posts`. For the sentinel `all` the list is the whole of `posts`. -/
theorem filterPosts_category (s : BlogManager) (c : JSString) (hc : c ≠ "all".toList) :
    (filterPosts s c).filteredPosts = s.posts.filter (fun p => decide (p.category = c)) ∧
    (∀ p, p ∈ (filterPosts s c).filteredPosts ↔ p ∈ s.posts ∧ p.category = c) ∧
    List.Sublist (filterPosts s c).filteredPosts s.posts ∧
    (filterPosts s "all".toList).filteredPosts = s.posts := by
  have h1 : (filterPosts s c).filteredPosts =
      s.posts.filter (fun p => decide (p.category = c)) := by
    rw [filterPosts_filteredPosts, if_neg hc]
    apply List.filter_congr
    intro p _
    rw [Bool.eq_iff_iff]
    simp
  refine ⟨h1, ?_, ?_, ?_⟩
  · intro p
    rw [h1]
    simp
  · rw [h1]
    exact List.filter_sublist _
  · rw [filterPosts_filteredPosts, if_pos rfl]

/-- The amended C1 at the two-post collection and the category `tech`. -/
theorem filterPosts_category_witness :
    (filterPosts (samplePage twoCategories) "tech".toList).filteredPosts
      = [samplePost 2 "tech" "Compilers" []] := by
  have h := (filterPosts_category (samplePage twoCategories) "tech".toList (by decide)).1
  rw [h]
  decide

/-! ## Searching -/

/-- C7: for every collection, every active filter and every query that is empty or
made of white space only, after `searchPosts(query)` the list `filteredPosts` is
the whole of `posts` and `currentPage` is 1. The lower-casing built-in enters
through the one fact used about it: it maps white-space-only text to
white-space-only text. -/
theorem searchPosts_blank (toLowerCase : JSString → JSString)
    (hlower : ∀ q, isBlank q → isBlank (toLowerCase q))
    (s : BlogManager) (query : JSString) (hq : isBlank query) :
    (searchPosts toLowerCase s query).filteredPosts = s.posts ∧
    (searchPosts toLowerCase s query).posts = s.posts ∧
    (searchPosts toLowerCase s query).currentPage = 1 := by
  refine ⟨?_, searchPosts_posts _ _ _, searchPosts_currentPage _ _ _⟩
  rw [searchPosts_filteredPosts, isBlank_trim (hlower query hq)]
  rfl

/-- C7 at a page filtered to `tech` and the query of two blanks. -/
theorem searchPosts_blank_witness :
    (searchPosts asciiLowerCase (filterPosts (samplePage twoCategories) "tech".toList)
      "  ".toList).filteredPosts = twoCategories ∧
    (searchPosts asciiLowerCase (filterPosts (samplePage twoCategories) "tech".toList)
      "  ".toList).currentPage = 1 := by
  have h := searchPosts_blank asciiLowerCase asciiLowerCase_blank
    (filterPosts (samplePage twoCategories) "tech".toList) "  ".toList (by decide)
  exact ⟨h.1.trans (by decide), h.2.2⟩

/-- C2: for every collection, every active filter and every query whose
lower-cased, trimmed form `t` is not empty, after `searchPosts(query)` the list
`filteredPosts` is exactly the posts of `posts`, in order, in which `t` occurs as
a contiguous substring of the lower-cased title, excerpt or content or of the
lower-cased form of some tag. In particular, where lower-casing sends `React`
and `react` to `react`, the query `react` selects every post one of whose tags
is `React`. -/
theorem searchPosts_term (toLowerCase : JSString → JSString) (s : BlogManager)
    (query : JSString) (hq : trim (toLowerCase query) ≠ []) :
    (searchPosts toLowerCase s query).filteredPosts =
      s.posts.filter (fun p => decide (
        trim (toLowerCase query) <:+: toLowerCase p.title ∨
        trim (toLowerCase query) <:+: toLowerCase p.excerpt ∨
        trim (toLowerCase query) <:+: toLowerCase p.content ∨
        ∃ tag ∈ p.tags, trim (toLowerCase query) <:+: toLowerCase tag)) ∧
    (query = "react".toList → toLowerCase "react".toList = "react".toList →
      toLowerCase "React".toList = "react".toList →
      ∀ p ∈ s.posts, "React".toList ∈ p.tags →
        p ∈ (searchPosts toLowerCase s query).filteredPosts) := by
  have hne : (trim (toLowerCase query)).isEmpty = false := by
    cases h : trim (toLowerCase query) with
    | nil => exact absurd h hq
    | cons a l => rfl
  have h1 : (searchPosts toLowerCase s query).filteredPosts =
      s.posts.filter (fun p => decide (
        trim (toLowerCase query) <:+: toLowerCase p.title ∨
        trim (toLowerCase query) <:+: toLowerCase p.excerpt ∨
        trim (toLowerCase query) <:+: toLowerCase p.content ∨
        ∃ tag ∈ p.tags, trim (toLowerCase query) <:+: toLowerCase tag)) := by
    rw [searchPosts_filteredPosts, hne]
    simp only [Bool.false_eq_true, if_false]
    apply List.filter_congr
    intro p _
    rw [Bool.eq_iff_iff]
    simp only [Bool.or_eq_true, includes_iff, List.any_eq_true, decide_eq_true_eq]
    tauto
  refine ⟨h1, ?_⟩
  intro hquery hlow hReact p hp htag
  rw [h1, List.mem_filter]
  refine ⟨hp, ?_⟩
  rw [decide_eq_true_eq]
  right; right; right
  refine ⟨"React".toList, htag, ?_⟩
  rw [hReact, hquery, hlow]
  exact List.infix_rfl

/-- C2 at the tagged collection and the query `React` with a trailing blank: the
post tagged `React` is selected and the other is not. -/
theorem searchPosts_term_witness :
    (searchPosts asciiLowerCase (samplePage taggedPosts) "React ".toList).filteredPosts
      = [samplePost 1 "tech" "Hooks in depth" ["React", "JS"]] := by
  have h := (searchPosts_term asciiLowerCase (samplePage taggedPosts) "React ".toList
    (by decide)).1
  rw [h]
  decide

/-! ## Pagination -/

/-- C3: with page size 6 and `currentPage = k >= 1`, the posts `renderPosts`
selects (its local `postsToShow`) are the slice `filteredPosts[(k-1)*6 : k*6]`,
that slice has `min(6, max(0, N - 6*(k-1)))` items, and whenever `renderPosts`
does not take its empty-result branch these are the cards it adds to the
container. -/
theorem renderPosts_page (s : BlogManager) (k : Nat) (hk : 1 ≤ k)
    (hpp : s.postsPerPage = 6) (hpage : s.currentPage = (k : Int)) :
    postsToShow s = (s.filteredPosts.take (6 * k)).drop (6 * (k - 1)) ∧
    ((postsToShow s).length : Int) =
      min 6 (max 0 ((s.filteredPosts.length : Int) - 6 * ((k : Int) - 1))) ∧
    (∀ (append : Bool) (children : List Node), s.container = some children →
      (postsToShow s ≠ [] ∨ append = true) →
      (renderPosts s append).container =
        some ((if append then children else []) ++ (postsToShow s).map createPostElement)) := by
  have h1 := postsToShow_page s k hk hpp hpage
  refine ⟨?_, ?_, ?_⟩
  · rw [h1, List.drop_take]
    congr 1
    omega
  · rw [h1, List.length_take, List.length_drop]
    omega
  · intro append children hc hor
    cases append with
    | true => rw [renderPosts_append s children hc]; rfl
    | false =>
      have hne : postsToShow s ≠ [] := by
        rcases hor with h | h
        · exact h
        · exact absurd h (by decide)
      rw [renderPosts_replace s children hc hne]
      rfl

/-- C3 at eight posts and page 2: the slice is the last two posts. -/
theorem renderPosts_page_witness :
    postsToShow { samplePage ((List.range 8).map (fun i => samplePost i "tech" "" []))
                  with currentPage := 2 }
      = [samplePost 6 "tech" "" [], samplePost 7 "tech" "" []] := by
  have h := (renderPosts_page
    { samplePage ((List.range 8).map (fun i => samplePost i "tech" "" [])) with currentPage := 2 }
    2 (by decide) rfl rfl).1
  rw [h]
  decide

/-- C4: on a page that has the container and the load-more button, with page
size 6 and `currentPage = k >= 1`, after `renderPosts(append)`, for either value
of `append`, the button's display is `block` when `6*k < N` and `none`
otherwise, so it is displayed iff `6*k < N`; in the empty-result branch it is
`none`. -/
theorem renderPosts_loadMoreBtn (s : BlogManager) (k : Nat) (append : Bool)
    (children : List Node) (display : JSString) (hk : 1 ≤ k)
    (hpp : s.postsPerPage = 6) (hpage : s.currentPage = (k : Int))
    (hc : s.container = some children) (hb : s.loadMoreBtn = some display) :
    (renderPosts s append).loadMoreBtn =
      some (if 6 * k < s.filteredPosts.length then "block".toList else "none".toList) ∧
    (∀ d, (renderPosts s append).loadMoreBtn = some d →
      (isDisplayed d ↔ 6 * k < s.filteredPosts.length)) ∧
    ((postsToShow s = [] ∧ append = false) →
      (renderPosts s append).container = some [Node.noPostsFound] ∧
      (renderPosts s append).loadMoreBtn = some "none".toList) := by
  have hlen := (postsToShow_page s k hk hpp hpage)
  have hend := endIndex_page s k hpp hpage
  have hmain : (renderPosts s append).loadMoreBtn =
      some (if 6 * k < s.filteredPosts.length then "block".toList else "none".toList) := by
    by_cases hempty : postsToShow s = [] ∧ append = false
    · obtain ⟨he, ha⟩ := hempty
      subst ha
      rw [renderPosts_empty s children hc he]
      simp only [hb, Option.map_some']
      have hl : (postsToShow s).length = 0 := by rw [he]; rfl
      rw [hlen, List.length_take, List.length_drop] at hl
      have hnot : ¬ (6 * k < s.filteredPosts.length) := by omega
      rw [if_neg hnot]
    · have hrw : (renderPosts s append).loadMoreBtn = s.loadMoreBtn.map (fun _ =>
          if decide (endIndex s < (s.filteredPosts.length : Int)) then "block".toList
          else "none".toList) := by
        cases append with
        | true => rw [renderPosts_append s children hc]
        | false =>
          have hne : postsToShow s ≠ [] := fun h => hempty ⟨h, rfl⟩
          rw [renderPosts_replace s children hc hne]
      rw [hrw, hb, hend]
      simp only [Option.map_some', Nat.cast_lt, decide_eq_true_eq]
  refine ⟨hmain, ?_, ?_⟩
  · intro d hd
    rw [hmain] at hd
    have hd2 := (Option.some.inj hd).symm
    subst hd2
    by_cases h : 6 * k < s.filteredPosts.length
    · simp only [h, if_true, iff_true]
      unfold isDisplayed
      decide
    · simp only [h, if_false, iff_false]
      unfold isDisplayed
      decide
  · rintro ⟨he, ha⟩
    subst ha
    rw [renderPosts_empty s children hc he]
    simp [hb]

/-- C4 at eight posts: the button shows after page 1 and is hidden after the
append of page 2. -/
theorem renderPosts_loadMoreBtn_witness :
    (renderPosts (samplePage ((List.range 8).map (fun i => samplePost i "tech" "" []))) false).loadMoreBtn
      = some "block".toList ∧
    (renderPosts { samplePage ((List.range 8).map (fun i => samplePost i "tech" "" []))
                   with currentPage := 2 } true).loadMoreBtn = some "none".toList :=
  ⟨(renderPosts_loadMoreBtn
      (samplePage ((List.range 8).map (fun i => samplePost i "tech" "" []))) 1 false [] []
      (by decide) rfl rfl rfl rfl).1,
   (renderPosts_loadMoreBtn
      { samplePage ((List.range 8).map (fun i => samplePost i "tech" "" [])) with currentPage := 2 }
      2 true [] [] (by decide) rfl rfl rfl rfl).1⟩

/-- C5: on a page that has the container, with page size 6 and a non-empty
`filteredPosts` of length `N`, a replacing render of page 1 followed by `j`
load-more clicks leaves the container holding the cards of exactly the first
`min(6*(j+1), N)` posts of `filteredPosts`, in order, with `filteredPosts`
unchanged and `currentPage = j + 1`; and once the load-more button is hidden the
container holds the cards of the whole of `filteredPosts`. -/
theorem loadMore_container (s : BlogManager) (j : Nat) (children : List Node)
    (hpp : s.postsPerPage = 6) (hpage : s.currentPage = 1)
    (hne : s.filteredPosts ≠ []) (hc : s.container = some children) :
    (loadMoreTimes (renderPosts s false) j).container =
      some ((s.filteredPosts.take (min (6 * (j + 1)) s.filteredPosts.length)).map
        createPostElement) ∧
    (loadMoreTimes (renderPosts s false) j).filteredPosts = s.filteredPosts ∧
    (loadMoreTimes (renderPosts s false) j).currentPage = (j : Int) + 1 ∧
    (∀ d, (loadMoreTimes (renderPosts s false) j).loadMoreBtn = some d → ¬ isDisplayed d →
      (loadMoreTimes (renderPosts s false) j).container =
        some (s.filteredPosts.map createPostElement)) := by
  obtain ⟨hf, _, _, hp, hcont, hbtn⟩ := loadMoreTimes_state s children hpp hpage hne hc j
  refine ⟨?_, hf, ?_, ?_⟩
  · rw [hcont, take_min_length]
  · rw [hp]
    omega
  · intro d hd hnd
    rw [hcont]
    rw [hbtn] at hd
    cases hb : s.loadMoreBtn with
    | none => rw [hb] at hd; exact absurd hd (by simp)
    | some d0 =>
      rw [hb] at hd
      simp only [Option.map_some', Option.some.injEq] at hd
      by_cases hlt : 6 * (j + 1) < s.filteredPosts.length
      · rw [if_pos hlt] at hd
        subst hd
        exact absurd (by unfold isDisplayed; decide) hnd
      · rw [List.take_of_length_le (by omega)]

/-- C5 at eight posts: page 1 shows the first six with the button displayed, one
load-more click leaves all eight in the container with the button hidden. -/
theorem loadMore_container_witness :
    (loadMoreTimes (renderPosts
        (samplePage ((List.range 8).map (fun i => samplePost i "tech" "" []))) false) 0).container
      = some (((List.range 6).map (fun i => samplePost i "tech" "" [])).map createPostElement) ∧
    (loadMoreTimes (renderPosts
        (samplePage ((List.range 8).map (fun i => samplePost i "tech" "" []))) false) 1).container
      = some (((List.range 8).map (fun i => samplePost i "tech" "" [])).map createPostElement) ∧
    (loadMoreTimes (renderPosts
        (samplePage ((List.range 8).map (fun i => samplePost i "tech" "" []))) false) 0).loadMoreBtn
      = some "block".toList ∧
    (loadMoreTimes (renderPosts
        (samplePage ((List.range 8).map (fun i => samplePost i "tech" "" []))) false) 1).loadMoreBtn
      = some "none".toList := by
  refine ⟨?_, ?_, by decide, by decide⟩
  · exact (loadMore_container
      (samplePage ((List.range 8).map (fun i => samplePost i "tech" "" []))) 0 []
      rfl rfl (by decide) rfl).1.trans (by decide)
  · exact (loadMore_container
      (samplePage ((List.range 8).map (fun i => samplePost i "tech" "" []))) 1 []
      rfl rfl (by decide) rfl).1.trans (by decide)

/-! ## Loading -/

/-- C8: when every fetched post carries a valid date, after a successful
`loadPosts` the list `posts` is a permutation of the fetched posts in which every
post's date is greater than or equal to the date of every later post, in
particular of the post right after it, and `filteredPosts` equals `posts`. -/
theorem loadPosts_sorted (dateValue : JSString → Option Int) (s : BlogManager)
    (fetched : List Post) (hvalid : ∀ p ∈ fetched, (dateValue p.date).isSome = true) :
    List.Perm (loadPosts dateValue s (some fetched)).posts fetched ∧
    List.Pairwise (dateNotBefore dateValue) (loadPosts dateValue s (some fetched)).posts ∧
    List.Chain' (dateNotBefore dateValue) (loadPosts dateValue s (some fetched)).posts ∧
    (loadPosts dateValue s (some fetched)).filteredPosts =
      (loadPosts dateValue s (some fetched)).posts := by
  have hperm : List.Perm (sort (compareByDate dateValue) fetched) fetched := sort_perm _ _
  have hkey := sort_pairwise (compareByDate dateValue)
    (fun p => (dateValue p.date).getD 0) fetched
    (fun x hx y hy => (compareByDate_valid dateValue x y (hvalid x hx) (hvalid y hy)).1)
  have hpair : List.Pairwise (dateNotBefore dateValue) (sort (compareByDate dateValue) fetched) := by
    refine List.Pairwise.imp_of_mem ?_ hkey
    intro a b ha hb hab
    exact (compareByDate_valid dateValue a b (hvalid a (hperm.mem_iff.mp ha))
      (hvalid b (hperm.mem_iff.mp hb))).2.mpr hab
  exact ⟨hperm, hpair, hpair.chain', rfl⟩

/-- C8 at three posts dated day 5, 9 and 5: the later post comes first and the
two posts of day 5 keep their order. -/
theorem loadPosts_sorted_witness :
    (loadPosts sampleDateValue (BlogManager.new (some []) (some [])) (some datedPosts)).posts
      = [datedPost 2 "tech" "B" "9", datedPost 1 "tech" "A" "5", datedPost 3 "life" "C" "5"] ∧
    List.Pairwise (dateNotBefore sampleDateValue)
      (loadPosts sampleDateValue (BlogManager.new (some []) (some [])) (some datedPosts)).posts :=
  ⟨by decide,
   (loadPosts_sorted sampleDateValue (BlogManager.new (some []) (some [])) datedPosts
     (by decide)).2.1⟩

/-! ## Reachable states -/

/-- C9: in every state reached from a successful load and first render by any
sequence of `filterPosts`, `searchPosts` and load-more steps, `posts` is the list
the load stored and `filteredPosts` is a subsequence of `posts`, in the order of
`posts`. -/
theorem run_posts_fixed (toLowerCase : JSString → JSString)
    (dateValue : JSString → Option Int) (s : BlogManager) (fetched : List Post)
    (actions : List Action) :
    (run toLowerCase (init dateValue s (some fetched)) actions).posts =
      (loadPosts dateValue s (some fetched)).posts ∧
    (run toLowerCase (init dateValue s (some fetched)) actions).posts =
      sort (compareByDate dateValue) fetched ∧
    List.Sublist (run toLowerCase (init dateValue s (some fetched)) actions).filteredPosts
      (run toLowerCase (init dateValue s (some fetched)) actions).posts := by
  have h0 : (init dateValue s (some fetched)).posts = sort (compareByDate dateValue) fetched := by
    unfold init
    rw [renderPosts_posts]
    rfl
  have h1 : (init dateValue s (some fetched)).filteredPosts =
      sort (compareByDate dateValue) fetched := by
    unfold init
    rw [renderPosts_filteredPosts]
    rfl
  have h := run_state toLowerCase actions (init dateValue s (some fetched))
    (by rw [h0, h1])
  refine ⟨?_, ?_, ?_⟩
  · rw [h.1, h0]
    rfl
  · rw [h.1, h0]
  · rw [h.1]
    exact h.2

/-! ## Post lookup -/

/-- C6, as stated, fails: with a single post of identifier 7, the URL identifier
`7abc` is the decimal text of no post's `id`, yet `loadAndDisplayPost` renders
post 7, because `parseInt` reads the leading digits and ignores the rest. -/
theorem loadAndDisplayPost_counterexample :
    loadAndDisplayPost (some [samplePost 7 "tech" "Seven" []]) "7abc".toList
      = PostPage.rendered (samplePost 7 "tech" "Seven" []) ∧
    idText 7 = "7".toList ∧
    ¬ ∃ p ∈ [samplePost 7 "tech" "Seven" []], idText p.id = "7abc".toList := by
  have h7 : idText 7 = "7".toList := by
    show decimalDigits 7 = _
    unfold decimalDigits
    norm_num [digitChar]
  refine ⟨by decide, h7, ?_⟩
  rintro ⟨p, hp, hid⟩
  rw [List.mem_singleton] at hp
  subst hp
  have h : idText 7 = "7abc".toList := hid
  rw [h7] at h
  exact absurd h (by decide)

/-- C6 (amended): for every successfully fetched collection, whose identifiers
are integers held by numbers, and every identifier string, `loadAndDisplayPost`
renders a post iff `parseInt` of the identifier, the double nearest to the integer
its leading digits denote, is the `id` of a post in the collection; the rendered
post is in the collection, has that `id`, and is the only such post when
identifiers are unique; every other identifier leads to the not-found panel; the
load-error panel is never shown; and the decimal text of the `id` of any post in
the collection renders a post with that `id`. -/
theorem loadAndDisplayPost_lookup (dataPosts : List Post) (postId : JSString)
    (hids : ∀ p ∈ dataPosts, isDouble p.id) :
    ((∃ post, loadAndDisplayPost (some dataPosts) postId = PostPage.rendered post) ↔
      ∃ p ∈ dataPosts, JSNumber.finite p.id = parseInt postId) ∧
    (∀ post, loadAndDisplayPost (some dataPosts) postId = PostPage.rendered post →
      post ∈ dataPosts ∧ JSNumber.finite post.id = parseInt postId ∧
      (dataPosts.Pairwise (fun a b => a.id ≠ b.id) →
        ∀ q ∈ dataPosts, q.id = post.id → q = post)) ∧
    ((¬ ∃ p ∈ dataPosts, JSNumber.finite p.id = parseInt postId) →
      loadAndDisplayPost (some dataPosts) postId = PostPage.postNotFound) ∧
    (∀ message, loadAndDisplayPost (some dataPosts) postId ≠ PostPage.loadError message) ∧
    (∀ p ∈ dataPosts, ∃ post,
      loadAndDisplayPost (some dataPosts) (idText p.id) = PostPage.rendered post ∧
      post.id = p.id) := by
  have key : ∀ (l : List Post) (ident : JSString),
      (∀ post, find (fun p => JSNumber.finite p.id == parseInt ident) l = some post →
        loadAndDisplayPost (some l) ident = PostPage.rendered post) ∧
      (find (fun p => JSNumber.finite p.id == parseInt ident) l = none →
        loadAndDisplayPost (some l) ident = PostPage.postNotFound) := by
    intro l ident
    constructor
    · intro post h
      unfold loadAndDisplayPost
      simp only [h]
    · intro h
      unfold loadAndDisplayPost
      simp only [h]
  have hrendered : ∀ (l : List Post) (ident : JSString) (post : Post),
      loadAndDisplayPost (some l) ident = PostPage.rendered post →
      find (fun p => JSNumber.finite p.id == parseInt ident) l = some post := by
    intro l ident post h
    cases hf : find (fun p => JSNumber.finite p.id == parseInt ident) l with
    | none => rw [(key l ident).2 hf] at h; exact absurd h (by simp)
    | some q =>
      rw [(key l ident).1 q hf] at h
      rw [PostPage.rendered.injEq] at h
      rw [h]
  have hex : ∀ (l : List Post) (ident : JSString),
      (∃ p ∈ l, JSNumber.finite p.id = parseInt ident) →
      ∃ post, find (fun p => JSNumber.finite p.id == parseInt ident) l = some post := by
    intro l ident ⟨p, hp, hid⟩
    cases hf : find (fun p => JSNumber.finite p.id == parseInt ident) l with
    | some q => exact ⟨q, rfl⟩
    | none =>
      have := (find_none _ _).mp hf p hp
      simp [hid] at this
  refine ⟨⟨?_, ?_⟩, ?_, ?_, ?_, ?_⟩
  · rintro ⟨post, h⟩
    have hf := find_some _ _ _ (hrendered _ _ _ h)
    exact ⟨post, hf.1, by simpa using hf.2⟩
  · intro h
    obtain ⟨post, hf⟩ := hex _ _ h
    exact ⟨post, (key _ _).1 post hf⟩
  · intro post h
    have hf := find_some _ _ _ (hrendered _ _ _ h)
    refine ⟨hf.1, by simpa using hf.2, ?_⟩
    intro hpw q hq hid
    by_contra hne
    exact (hpw.forall (fun a b hab => fun h => hab h.symm) hq hf.1 hne) hid
  · intro hnone
    apply (key _ _).2
    rw [find_none]
    intro x hx
    by_contra hb
    apply hnone
    refine ⟨x, hx, ?_⟩
    simpa using hb
  · intro message h
    cases hf : find (fun p => JSNumber.finite p.id == parseInt postId) dataPosts with
    | none => rw [(key _ _).2 hf] at h; exact absurd h (by simp)
    | some q => rw [(key _ _).1 q hf] at h; exact absurd h (by simp)
  · intro p hp
    have hd : toNumber p.id = JSNumber.finite p.id := hids p hp
    obtain ⟨post, hf⟩ := hex dataPosts (idText p.id)
      ⟨p, hp, by rw [parseInt_idText, hd]⟩
    refine ⟨post, (key _ _).1 post hf, ?_⟩
    have h2 := (find_some _ _ _ hf).2
    rw [parseInt_idText, hd] at h2
    simpa using h2

/-- The amended C6 at a collection of the posts 7 and `2^53`: the identifier
`7abc` renders post 7, the identifier `9007199254740993`, which `parseInt` rounds
to `2^53`, renders the post `2^53`, and the identifier 999 leads to the not-found
panel. -/
theorem loadAndDisplayPost_lookup_witness :
    (∃ post, loadAndDisplayPost
      (some [samplePost 7 "tech" "Seven" [], samplePost 9007199254740992 "tech" "Big" []])
      "7abc".toList = PostPage.rendered post) ∧
    (∃ post, loadAndDisplayPost
      (some [samplePost 7 "tech" "Seven" [], samplePost 9007199254740992 "tech" "Big" []])
      "9007199254740993".toList = PostPage.rendered post) ∧
    loadAndDisplayPost
      (some [samplePost 7 "tech" "Seven" [], samplePost 9007199254740992 "tech" "Big" []])
      "999".toList = PostPage.postNotFound :=
  ⟨(loadAndDisplayPost_lookup
      [samplePost 7 "tech" "Seven" [], samplePost 9007199254740992 "tech" "Big" []]
      "7abc".toList (by decide)).1.mpr (by decide),
   (loadAndDisplayPost_lookup
      [samplePost 7 "tech" "Seven" [], samplePost 9007199254740992 "tech" "Big" []]
      "9007199254740993".toList (by decide)).1.mpr (by decide),
   (loadAndDisplayPost_lookup
      [samplePost 7 "tech" "Seven" [], samplePost 9007199254740992 "tech" "Big" []]
      "999".toList (by decide)).2.2.1 (by decide)⟩

/-! ## Content formatting -/

/-- C10, as stated, fails: a piece is not inserted as it is, its leading and
trailing white space is removed. The content of a blank followed by `a` yields
the paragraph `<p>a</p>`, not `<p> a</p>`. -/
theorem formatContent_counterexample :
    split " a".toList "\n\n".toList = [" a".toList] ∧
    formatContent " a".toList = "<p>a</p>".toList ∧
    formatContent " a".toList ≠
      ((split " a".toList "\n\n".toList).map
        (fun piece => "<p>".toList ++ piece ++ "</p>".toList)).flatten := by
  decide

/-- C10 (amended): for every content string, `formatContent` returns the
concatenation, in order, of `<p>` + trimmed piece + `</p>` for each piece of the
split of the content on the separator of two line feeds; the number of paragraphs
is the number of pieces, there is at least one piece, and the pieces joined by the
separator give back the content. -/
theorem formatContent_paragraphs (content : JSString) :
    formatContent content =
      ((split content "\n\n".toList).map
        (fun piece => "<p>".toList ++ trim piece ++ "</p>".toList)).flatten ∧
    (formatParagraphs content).length = (split content "\n\n".toList).length ∧
    split content "\n\n".toList ≠ [] ∧
    join "\n\n".toList (split content "\n\n".toList) = content := by
  have h := split_join content "\n\n".toList (by decide)
  refine ⟨?_, ?_, h.2, h.1⟩
  · unfold formatContent
    rw [join_nil_eq_flatten]
    rfl
  · unfold formatParagraphs
    rw [List.length_map]

end Blog
